import Mathlib

/-!
Shallow embedding of the interval-trainer session timeline engine
(`src/App.tsx`): the phase planner (`buildPhases`), the plan aggregators
(`totalSessionSec`, `computeRemainingTotal`, `computeRemainingTotalWithPreWork`),
the time-based runner state machine (`tick`, `skip`, `startPauseResume`,
`stop`), the repetition aggregators (`repTotals`, `repBreakdown`), the history
log builder (`makeTimeLogEntry`, `saveToHistory`) and the persistence
normalization (`normalizeLoadedCard`).  JavaScript numbers holding integer
values are embedded as `Int` (added weights, which may be fractional, as `Rat`);
JavaScript `undefined` / missing object fields are embedded as `Option`.
-/

namespace ITrainer

inductive PhaseType
  | WARMUP
  | WORK
  | REST
  | COOLDOWN
deriving DecidableEq, Repr

/-- `RestKind` from the source is `"REP" | "SET" | null`; `null` is `NONE`. -/
inductive RestKind
  | REP
  | SET
  | NONE
deriving DecidableEq, Repr

inductive RunStatus
  | IDLE
  | RUNNING
  | PAUSED
  | FINISHED
deriving DecidableEq, Repr

structure TimingConfig where
  warmupSec : Int
  workSec : Int
  restBetweenRepsSec : Int
  repsPerSet : Int
  restBetweenSetsSec : Int
  sets : Int
  cooldownSec : Int
deriving DecidableEq, Repr

attribute [ext] TimingConfig

structure Phase where
  type : PhaseType
  label : String
  restKind : RestKind
  durationSec : Int
  set : Int
  rep : Int
deriving DecidableEq, Repr

instance : Inhabited Phase := ⟨⟨PhaseType.WORK, "", RestKind.NONE, 0, 0, 0⟩⟩

structure Exercise where
  name : String
  notes : String
  image : Option String
deriving DecidableEq, Repr

structure TimeCard where
  id : String
  title : String
  createdAt : Int
  updatedAt : Int
  exercise : Exercise
  setExercises : Option (List Exercise)
  timing : TimingConfig
deriving DecidableEq, Repr

structure RepSet where
  id : String
  exercise : String
  reps : Int
  weightKg : Rat
  image : Option String
deriving DecidableEq, Repr

structure RepCard where
  id : String
  title : String
  createdAt : Int
  updatedAt : Int
  warmupSec : Int
  cooldownSec : Int
  sets : List RepSet
  restBetweenSetsSec : Int
  targetSetSec : Option Int
deriving DecidableEq, Repr

inductive IntervalCard
  | time (c : TimeCard)
  | reps (c : RepCard)
deriving DecidableEq, Repr

/-! ### Phase planner (`buildPhases`, App.tsx lines 1138-1216) -/

def warmupPhase (d : Int) : Phase :=
  ⟨PhaseType.WARMUP, "WARMUP", RestKind.NONE, d, 0, 0⟩

def workPhase (d s r : Int) : Phase :=
  ⟨PhaseType.WORK, "ARBEIT", RestKind.NONE, d, s, r⟩

def repRestPhase (d s r : Int) : Phase :=
  ⟨PhaseType.REST, "PAUSE (Wdh)", RestKind.REP, d, s, r⟩

def setRestPhase (d s r : Int) : Phase :=
  ⟨PhaseType.REST, "PAUSE (Satz)", RestKind.SET, d, s, r⟩

def cooldownPhase (d : Int) : Phase :=
  ⟨PhaseType.COOLDOWN, "COOLDOWN", RestKind.NONE, d, 0, 0⟩

/-- The synthetic 20-second WORK phase pushed when no phase was emitted. -/
def fallbackPhase : Phase :=
  ⟨PhaseType.WORK, "ARBEIT", RestKind.NONE, 20, 1, 1⟩

/-- Body of the inner rep loop for `r` in `1..reps`: a WORK phase when
`workSec > 0`, then a rep REST when `r < reps && restBetweenRepsSec > 0`. -/
def repBlock (t : TimingConfig) (reps s r : Int) : List Phase :=
  (if 0 < t.workSec then [workPhase t.workSec s r] else [])
    ++ (if r < reps ∧ 0 < t.restBetweenRepsSec then
          [repRestPhase t.restBetweenRepsSec s r] else [])

/-- Body of the outer set loop for `s` in `1..sets`: the rep loop, then a set
REST when `s < sets && restBetweenSetsSec > 0`. -/
def setBlock (t : TimingConfig) (sets reps s : Int) : List Phase :=
  ((List.range reps.toNat).map (fun (i : Nat) => repBlock t reps s ((i : Int) + 1))).flatten
    ++ (if s < sets ∧ 0 < t.restBetweenSetsSec then
          [setRestPhase t.restBetweenSetsSec s reps] else [])

/-- The phase list accumulated before the empty-list fallback check. -/
def mainPhases (t : TimingConfig) : List Phase :=
  (if 0 < t.warmupSec then [warmupPhase t.warmupSec] else [])
    ++ ((List.range (max 1 t.sets).toNat).map
          (fun (i : Nat) => setBlock t (max 1 t.sets) (max 1 t.repsPerSet) ((i : Int) + 1))).flatten
    ++ (if 0 < t.cooldownSec then [cooldownPhase t.cooldownSec] else [])

def buildPhases (card : TimeCard) : List Phase :=
  if mainPhases card.timing = [] then [fallbackPhase] else mainPhases card.timing

/-! ### Plan aggregators (App.tsx lines 1218-1255) -/

/-- `phases.reduce((acc, p) => acc + p.durationSec, 0)`. -/
def totalSessionSec (phases : List Phase) : Int :=
  phases.foldl (fun acc p => acc + p.durationSec) 0

/-- Sum of the `durationSec` fields (proof-friendly form of the same sum). -/
def durSum (phases : List Phase) : Int :=
  (phases.map Phase.durationSec).sum

/-- `computeRemainingTotal`: `remainingSec` plus the durations of all phases
strictly after index `idx`. -/
def computeRemainingTotal (phases : List Phase) (idx : Nat) (remainingSec : Int) : Int :=
  remainingSec + durSum (phases.drop (idx + 1))

/-- Number of WORK phases in a list. -/
def workCount (phases : List Phase) : Nat :=
  (phases.filter (fun p => decide (p.type = PhaseType.WORK))).length

/-- `computeRemainingTotalWithPreWork` (App.tsx lines 1231-1255). -/
def computeRemainingTotalWithPreWork (phases : List Phase) (idx : Nat)
    (remainingSec preWorkSec preWorkCountdown : Int) : Int :=
  let total := computeRemainingTotal phases idx remainingSec
  let total := total + max 0 preWorkSec
  let cd := max 0 preWorkCountdown
  if 0 < cd then total + cd * (workCount (phases.drop (idx + 1)) : Int) else total

/-! ### Runner state machine (App.tsx lines 3236-3482) -/

def PRE_WORK_COUNTDOWN : Int := 4

structure RunnerState where
  status : RunStatus
  phaseIndex : Nat
  remainingSec : Int
  totalRemainingSec : Int
  preWorkSec : Int
deriving DecidableEq, Repr

/-- `phases[0]?.durationSec ?? 0`. -/
def headDurationSec (phases : List Phase) : Int :=
  match phases with
  | [] => 0
  | p :: _ => p.durationSec

/-- `phases[0]?.type === "WORK" ? PRE_WORK_COUNTDOWN : 0`. -/
def headPre (phases : List Phase) : Int :=
  match phases with
  | [] => 0
  | p :: _ => if p.type = PhaseType.WORK then PRE_WORK_COUNTDOWN else 0

/-- `totalPlanned + PRE_WORK_COUNTDOWN * workCount` (App.tsx lines 3239-3242). -/
def totalWithCountdown (phases : List Phase) : Int :=
  totalSessionSec phases + PRE_WORK_COUNTDOWN * (workCount phases : Int)

/-- The runner's initial state (App.tsx lines 3244-3250). -/
def initialRunner (phases : List Phase) : RunnerState :=
  ⟨RunStatus.IDLE, 0, headDurationSec phases, totalWithCountdown phases, 0⟩

/-- The setInterval tick callback (App.tsx lines 3283-3330). -/
def tick (phases : List Phase) (prev : RunnerState) : RunnerState :=
  if prev.status ≠ RunStatus.RUNNING then prev
  else if 0 < prev.preWorkSec then
    let nextPre := max 0 (prev.preWorkSec - 1)
    { prev with
        preWorkSec := nextPre,
        totalRemainingSec := computeRemainingTotalWithPreWork phases prev.phaseIndex
          prev.remainingSec nextPre PRE_WORK_COUNTDOWN }
  else if 1 < prev.remainingSec then
    let nextRem := prev.remainingSec - 1
    { prev with
        remainingSec := nextRem,
        totalRemainingSec := computeRemainingTotalWithPreWork phases prev.phaseIndex
          nextRem 0 PRE_WORK_COUNTDOWN }
  else
    let nextIndex := prev.phaseIndex + 1
    if phases.length ≤ nextIndex then
      { prev with
          status := RunStatus.FINISHED, remainingSec := 0,
          totalRemainingSec := 0, preWorkSec := 0 }
    else
      let nextPhase := phases.getD nextIndex default
      let nextRem := nextPhase.durationSec
      let nextPre := if nextPhase.type = PhaseType.WORK then PRE_WORK_COUNTDOWN else 0
      { prev with
          status := RunStatus.RUNNING, phaseIndex := nextIndex,
          remainingSec := nextRem, preWorkSec := nextPre,
          totalRemainingSec := computeRemainingTotalWithPreWork phases nextIndex
            nextRem nextPre PRE_WORK_COUNTDOWN }

/-- `skip` (App.tsx lines 3429-3464). -/
def skip (phases : List Phase) (prev : RunnerState) : RunnerState :=
  if 0 < prev.preWorkSec then
    { prev with
        preWorkSec := 0,
        totalRemainingSec := computeRemainingTotalWithPreWork phases prev.phaseIndex
          prev.remainingSec 0 PRE_WORK_COUNTDOWN }
  else
    let nextIndex := prev.phaseIndex + 1
    if phases.length ≤ nextIndex then
      { prev with
          status := RunStatus.FINISHED, remainingSec := 0,
          totalRemainingSec := 0, preWorkSec := 0 }
    else
      let nextPhase := phases.getD nextIndex default
      let nextRem := nextPhase.durationSec
      let nextPre := if nextPhase.type = PhaseType.WORK then PRE_WORK_COUNTDOWN else 0
      { prev with
          status := RunStatus.RUNNING, phaseIndex := nextIndex,
          remainingSec := nextRem, preWorkSec := nextPre,
          totalRemainingSec := computeRemainingTotalWithPreWork phases nextIndex
            nextRem nextPre PRE_WORK_COUNTDOWN }

/-- `startPauseResume` (App.tsx lines 3408-3427). -/
def startPauseResume (phases : List Phase) (prev : RunnerState) : RunnerState :=
  if prev.status = RunStatus.IDLE ∨ prev.status = RunStatus.FINISHED then
    let rem := headDurationSec phases
    let firstPre := headPre phases
    ⟨RunStatus.RUNNING, 0, rem,
      computeRemainingTotalWithPreWork phases 0 rem firstPre PRE_WORK_COUNTDOWN, firstPre⟩
  else if prev.status = RunStatus.RUNNING then { prev with status := RunStatus.PAUSED }
  else if prev.status = RunStatus.PAUSED then { prev with status := RunStatus.RUNNING }
  else prev

/-- `stop` (App.tsx lines 3466-3474); ignores the previous state. -/
def stop (phases : List Phase) : RunnerState :=
  ⟨RunStatus.IDLE, 0, headDurationSec phases, totalWithCountdown phases, 0⟩

/-! ### Runner operation sequences (for the reachable-state invariants) -/

inductive RunnerOp
  | start
  | tick
  | skip
  | stop
deriving DecidableEq, Repr

def applyOp (phases : List Phase) (op : RunnerOp) (st : RunnerState) : RunnerState :=
  match op with
  | RunnerOp.start => startPauseResume phases st
  | RunnerOp.tick => tick phases st
  | RunnerOp.skip => skip phases st
  | RunnerOp.stop => stop phases

def runOps (phases : List Phase) (ops : List RunnerOp) (st : RunnerState) : RunnerState :=
  ops.foldl (fun s op => applyOp phases op s) st

/-! ### Repetition aggregators (`repTotals`, `repBreakdown`, App.tsx 862-878) -/

/-- `repTotals`: total reps and total moved kilograms of a rep card. -/
def repTotals (card : RepCard) : Int × Rat :=
  (card.sets.foldl (fun sum s => sum + s.reps) 0,
   card.sets.foldl (fun sum s => sum + (s.reps : Rat) * s.weightKg) 0)

/-- JavaScript `String.prototype.trim`, modelled over the character list
(drops leading and trailing whitespace); `String.trim` itself is avoided only
because its byte-position implementation does not reduce in the kernel. -/
def jsWhitespace (c : Char) : Bool :=
  c = ' ' || c = '\t' || c = '\n' || c = '\r' || c = '\x0b' || c = '\x0c'

def jsTrim (s : String) : String :=
  String.mk (((s.toList.dropWhile jsWhitespace).reverse.dropWhile jsWhitespace).reverse)

/-- The grouping key `(s.exercise || "—").trim() || "—"`. -/
def bdKey (e : String) : String :=
  let t := jsTrim (if e = "" then "—" else e)
  if t = "" then "—" else t

/-- `Map.set` on an insertion-ordered association list: add into the existing
entry for `key`, else append a fresh entry at the end. -/
def upsert (acc : List (String × Int × Rat)) (key : String) (r : Int) (kg : Rat) :
    List (String × Int × Rat) :=
  match acc with
  | [] => [(key, r, kg)]
  | (k, x, y) :: rest =>
      if k = key then (k, x + r, y + kg) :: rest else (k, x, y) :: upsert rest key r kg

/-- `repBreakdown`: per-exercise sums in first-insertion order (a JS `Map`
iterates in insertion order; `prev.reps += ...` accumulates per key). -/
def repBreakdown (card : RepCard) : List (String × Int × Rat) :=
  card.sets.foldl
    (fun acc s => upsert acc (bdKey s.exercise) s.reps ((s.reps : Rat) * s.weightKg)) []

/-- Per-key rep aggregate of a set list under the source's grouping key. -/
def sumRepsAt (l : List RepSet) (k : String) : Int :=
  ((l.filter (fun s => decide (bdKey s.exercise = k))).map RepSet.reps).sum

/-- Per-key kg aggregate of a set list under the source's grouping key. -/
def sumKgAt (l : List RepSet) (k : String) : Rat :=
  ((l.filter (fun s => decide (bdKey s.exercise = k))).map
    (fun s => (s.reps : Rat) * s.weightKg)).sum

/-- Grouping as the specification sentence words it: per distinct exercise
name (case-sensitive), with only blank or whitespace-only names replaced by
the placeholder before grouping. -/
def bdKeySpec (e : String) : String :=
  if jsTrim e = "" then "—" else e

/-- Breakdown as the specification sentence words it: group by the exact
exercise name, blank/whitespace-only names collapsing to one placeholder. -/
def repBreakdownSpec (card : RepCard) : List (String × Int × Rat) :=
  card.sets.foldl
    (fun acc s => upsert acc (bdKeySpec s.exercise) s.reps ((s.reps : Rat) * s.weightKg)) []

/-! ### History log builder (App.tsx 1639-1656, 3476-3482, 1808-1810) -/

inductive CardKind
  | TIME
  | REPS
deriving DecidableEq, Repr

structure TimeLogData where
  exercise : String
  plannedTotalSec : Int
  sets : Int
  repsPerSet : Int
  workSec : Int
  restBetweenSetsSec : Int
deriving DecidableEq, Repr

structure WorkoutLogEntry where
  id : String
  createdAt : Int
  profileId : String
  kind : CardKind
  cardId : Option String
  cardTitle : String
  time : Option TimeLogData
deriving DecidableEq, Repr

/-- `makeTimeLogEntry`; `makeId()` and `Date.now()` are passed in as the
`newId` / `now` parameters. -/
def makeTimeLogEntry (newId : String) (now : Int) (profileId : String)
    (card : TimeCard) (plannedTotalSec : Int) : WorkoutLogEntry :=
  { id := newId
    createdAt := now
    profileId := profileId
    kind := CardKind.TIME
    cardId := some card.id
    cardTitle := card.title
    time := some
      { exercise := card.exercise.name
        plannedTotalSec := plannedTotalSec
        sets := card.timing.sets
        repsPerSet := card.timing.repsPerSet
        workSec := card.timing.workSec
        restBetweenSetsSec := card.timing.restBetweenSetsSec } }

/-- `saveToHistory` with `onSaveLog = addHistoryEntry` (which prepends the
entry).  The component-local `saved` flag and the history list are threaded
explicitly; `!profileId` is the empty-string check. -/
def saveToHistory (newId : String) (now : Int) (profileId : String) (card : TimeCard)
    (saved : Bool) (history : List WorkoutLogEntry) : Bool × List WorkoutLogEntry :=
  if saved then (saved, history)
  else if profileId = "" then (saved, history)
  else
    (true,
     makeTimeLogEntry newId now profileId card (totalSessionSec (buildPhases card))
       :: history)

/-! ### Persistence normalization (App.tsx 1260-1380)

`saveCards` writes `JSON.stringify(cards)`; `loadCards` parses it back and maps
`normalizeLoadedCard` over the decoded array, dropping `null` results.  Since
`JSON.parse(JSON.stringify(x))` is the structural identity on these plain
objects (with `undefined`-valued optional fields dropped), the stored shape is
embedded as the `Raw*` structures below and `saveCards ∘ loadCards` as
`toRaw*` followed by `normalizeLoadedCard`. -/

structure RawTiming where
  warmupSec : Option Int
  workSec : Option Int
  restBetweenRepsSec : Option Int
  repsPerSet : Option Int
  restBetweenSetsSec : Option Int
  sets : Option Int
  cooldownSec : Option Int
deriving DecidableEq, Repr

structure RawExercise where
  name : Option String
  notes : Option String
  image : Option String
  imageUrl : Option String
deriving DecidableEq, Repr

structure RawRepSet where
  id : Option String
  exercise : Option String
  reps : Option Int
  weightKg : Option Rat
  image : Option String
  imageUrl : Option String
deriving DecidableEq, Repr

structure RawCard where
  kind : Option String
  id : Option String
  title : Option String
  createdAt : Option Int
  updatedAt : Option Int
  exercise : Option RawExercise
  setExercises : Option (List RawExercise)
  timing : Option RawTiming
  sets : Option (List RawRepSet)
  warmupSec : Option Int
  cooldownSec : Option Int
  restBetweenSetsSec : Option Int
  targetSetSec : Option Int
deriving DecidableEq, Repr

/-- `Number(x) || d`: a present value survives unless it is `0` (falsy); a
missing value (`Number(undefined)` is `NaN`, falsy) becomes the default. -/
def jnum (o : Option Int) (d : Int) : Int :=
  match o with
  | none => d
  | some n => if n = 0 then d else n

/-- `clampInt` (App.tsx 60-63) on an integer-valued finite number. -/
def clampInt (n lo hi : Int) : Int :=
  min hi (max lo n)

/-- `typeof img === "string" && img.trim() ? img.trim() : undefined`. -/
def trimmedOpt (o : Option String) : Option String :=
  match o with
  | none => none
  | some s => if jsTrim s = "" then none else some (jsTrim s)

end ITrainer

namespace ITrainer

/-- The REPS branch of `normalizeLoadedCard` (App.tsx 1265-1298). -/
def normalizeRepsBranch (freshId : String) (now : Int) (raw : RawCard) : RepCard :=
  let setsRaw := raw.sets.getD []
  let sets : List RepSet := setsRaw.map (fun s =>
    let img := match s.image with
      | some i => some i
      | none => s.imageUrl
    { id := s.id.getD freshId
      exercise := s.exercise.getD ""
      reps := s.reps.getD 0
      weightKg := s.weightKg.getD 0
      image := trimmedOpt img })
  { id := raw.id.getD freshId
    title := raw.title.getD "Wdh‑Session"
    createdAt := raw.createdAt.getD now
    updatedAt := raw.updatedAt.getD now
    warmupSec := match raw.warmupSec with
      | some n => max 0 n
      | none => 0
    cooldownSec := match raw.cooldownSec with
      | some n => max 0 n
      | none => 0
    sets := if sets = [] then [⟨freshId, "", 10, 0, none⟩] else sets
    restBetweenSetsSec := raw.restBetweenSetsSec.getD 60
    targetSetSec := raw.targetSetSec }

/-- The TIME branch of `normalizeLoadedCard` (App.tsx 1303-1359). -/
def normalizeTimeBranch (freshId : String) (now : Int) (raw : RawCard) : TimeCard :=
  let t := raw.timing.getD ⟨none, none, none, none, none, none, none⟩
  let baseImage := match raw.exercise with
    | none => none
    | some e => match e.image with
      | some i => some i
      | none => e.imageUrl
  let setsCount := clampInt (jnum t.sets 4) 1 99
  let parsedSetExercises : List Exercise := (raw.setExercises.getD []).map (fun x =>
    let img := match x.image with
      | some i => some i
      | none => x.imageUrl
    { name := x.name.getD ""
      notes := x.notes.getD ""
      image := trimmedOpt img })
  let normalizedSetExercises : Option (List Exercise) :=
    if parsedSetExercises = [] then none
    else
      let copy := parsedSetExercises.take setsCount.toNat
      some (copy ++ List.replicate (setsCount.toNat - copy.length) ⟨"", "", none⟩)
  { id := raw.id.getD freshId
    title := raw.title.getD "Interval"
    createdAt := raw.createdAt.getD now
    updatedAt := raw.updatedAt.getD now
    exercise :=
      { name := match raw.exercise with
          | none => ""
          | some e => e.name.getD ""
        notes := match raw.exercise with
          | none => ""
          | some e => e.notes.getD ""
        image := trimmedOpt baseImage }
    setExercises := normalizedSetExercises
    timing :=
      { warmupSec := jnum t.warmupSec 0
        workSec := jnum t.workSec 20
        restBetweenRepsSec := jnum t.restBetweenRepsSec 0
        repsPerSet := clampInt (jnum t.repsPerSet 1) 1 99
        restBetweenSetsSec := jnum t.restBetweenSetsSec 60
        sets := setsCount
        cooldownSec := jnum t.cooldownSec 0 } }

/-- `normalizeLoadedCard` (App.tsx 1260-1362).  `raw.timing && raw.exercise`
is object truthiness, i.e. presence of both fields. -/
def normalizeLoadedCard (freshId : String) (now : Int) (raw : RawCard) :
    Option IntervalCard :=
  if raw.kind = some "REPS" then
    some (IntervalCard.reps (normalizeRepsBranch freshId now raw))
  else if raw.kind = some "TIME" ∨ (raw.timing ≠ none ∧ raw.exercise ≠ none) then
    some (IntervalCard.time (normalizeTimeBranch freshId now raw))
  else
    none

/-- `JSON.parse(JSON.stringify(·))` image of a stored `Exercise`. -/
def toRawExercise (e : Exercise) : RawExercise :=
  ⟨some e.name, some e.notes, e.image, none⟩

/-- `JSON.parse(JSON.stringify(·))` image of a stored `TimeCard`. -/
def toRawTime (c : TimeCard) : RawCard :=
  { kind := some "TIME"
    id := some c.id
    title := some c.title
    createdAt := some c.createdAt
    updatedAt := some c.updatedAt
    exercise := some (toRawExercise c.exercise)
    setExercises := c.setExercises.map (fun l => l.map toRawExercise)
    timing := some
      ⟨some c.timing.warmupSec, some c.timing.workSec, some c.timing.restBetweenRepsSec,
       some c.timing.repsPerSet, some c.timing.restBetweenSetsSec, some c.timing.sets,
       some c.timing.cooldownSec⟩
    sets := none
    warmupSec := none
    cooldownSec := none
    restBetweenSetsSec := none
    targetSetSec := none }

/-- `JSON.parse(JSON.stringify(·))` image of a stored `RepCard`. -/
def toRawRep (c : RepCard) : RawCard :=
  { kind := some "REPS"
    id := some c.id
    title := some c.title
    createdAt := some c.createdAt
    updatedAt := some c.updatedAt
    exercise := none
    setExercises := none
    timing := none
    sets := some (c.sets.map (fun s =>
      ⟨some s.id, some s.exercise, some s.reps, some s.weightKg, s.image, none⟩))
    warmupSec := some c.warmupSec
    cooldownSec := some c.cooldownSec
    restBetweenSetsSec := some c.restBetweenSetsSec
    targetSetSec := c.targetSetSec }

def toRaw (c : IntervalCard) : RawCard :=
  match c with
  | IntervalCard.time c => toRawTime c
  | IntervalCard.reps c => toRawRep c

/-- `loadCards` applied to the stored image of `saveCards cards`. -/
def saveLoadCards (freshId : String) (now : Int) (cards : List IntervalCard) :
    List IntervalCard :=
  (cards.map toRaw).filterMap (normalizeLoadedCard freshId now)

/-! ### Basic facts about the aggregators -/

theorem durSum_nil : durSum [] = 0 := rfl

theorem durSum_cons (p : Phase) (l : List Phase) :
    durSum (p :: l) = p.durationSec + durSum l := by
  simp [durSum]

theorem durSum_append (a b : List Phase) :
    durSum (a ++ b) = durSum a + durSum b := by
  simp [durSum]

theorem durSum_flatten (L : List (List Phase)) :
    durSum L.flatten = (L.map durSum).sum := by
  induction L with
  | nil => rfl
  | cons h t ih => simp [durSum_append, ih]

theorem foldl_add_durationSec (l : List Phase) (a : Int) :
    l.foldl (fun acc p => acc + p.durationSec) a = a + durSum l := by
  induction l generalizing a with
  | nil => simp [durSum]
  | cons p t ih => simp [ih, durSum_cons]; ring

theorem totalSessionSec_eq_durSum (l : List Phase) :
    totalSessionSec l = durSum l := by
  simp [totalSessionSec, foldl_add_durationSec]

theorem durSum_nonneg {l : List Phase} (h : ∀ p ∈ l, 0 ≤ p.durationSec) :
    0 ≤ durSum l := by
  induction l with
  | nil => simp [durSum]
  | cons p t ih =>
      rw [durSum_cons]
      have hp := h p (by simp)
      have ht := ih (fun q hq => h q (by simp [hq]))
      omega

theorem durSum_drop_nonneg {l : List Phase} (h : ∀ p ∈ l, 0 ≤ p.durationSec) (n : Nat) :
    0 ≤ durSum (l.drop n) :=
  durSum_nonneg (fun p hp => h p (List.mem_of_mem_drop hp))

theorem computeRemainingTotalWithPreWork_eq (phases : List Phase) (idx : Nat)
    (rem pre : Int) :
    computeRemainingTotalWithPreWork phases idx rem pre PRE_WORK_COUNTDOWN
      = rem + durSum (phases.drop (idx + 1)) + max 0 pre
        + PRE_WORK_COUNTDOWN * (workCount (phases.drop (idx + 1)) : Int) := by
  simp [computeRemainingTotalWithPreWork, computeRemainingTotal, PRE_WORK_COUNTDOWN]

theorem computeRemainingTotalWithPreWork_nonneg (phases : List Phase) (idx : Nat)
    (rem pre : Int) (hrem : 0 ≤ rem) (hd : 0 ≤ durSum (phases.drop (idx + 1))) :
    0 ≤ computeRemainingTotalWithPreWork phases idx rem pre PRE_WORK_COUNTDOWN := by
  rw [computeRemainingTotalWithPreWork_eq]
  have hcnt : (0 : Int) ≤ (workCount (phases.drop (idx + 1)) : Int) := Int.natCast_nonneg _
  have hmax : (0 : Int) ≤ max 0 pre := le_max_left _ _
  simp only [PRE_WORK_COUNTDOWN]
  omega

theorem getD_mem_of_lt {l : List Phase} {n : Nat} (h : n < l.length) :
    l.getD n default ∈ l := by
  induction l generalizing n with
  | nil => simp at h
  | cons p t ih =>
      cases n with
      | zero => simp [List.getD]
      | succ m =>
          simp only [List.getD_cons_succ]
          exact List.mem_cons_of_mem _ (ih (by simpa using h))

/-! ### Summation over the planner's loop ranges -/

theorem sum_map_range_add (n : Nat) (f g : Nat → Int) :
    ((List.range n).map (fun i => f i + g i)).sum
      = ((List.range n).map f).sum + ((List.range n).map g).sum := by
  induction n with
  | zero => simp
  | succ m ih => simp [List.range_succ, ih]; ring

theorem sum_map_range_const (n : Nat) (c : Int) :
    ((List.range n).map (fun _ => c)).sum = n * c := by
  induction n with
  | zero => simp
  | succ m ih => simp [List.range_succ, ih]; ring

theorem sum_map_range_if_lt (n k : Nat) (d : Int) :
    ((List.range n).map (fun i => if i < k then d else 0)).sum = (min n k : Nat) * d := by
  induction n with
  | zero => simp
  | succ m ih =>
      rw [List.range_succ]
      simp only [List.map_append, List.sum_append, List.map_cons, List.map_nil,
        List.sum_cons, List.sum_nil, ih]
      by_cases h : m < k
      · rw [if_pos h, Nat.min_eq_left (Nat.le_of_lt h), Nat.min_eq_left h]
        push_cast
        ring
      · rw [if_neg h, Nat.min_eq_right (Nat.le_of_not_lt h),
          Nat.min_eq_right (by omega)]
        ring

theorem ite_pos_self (x : Int) (h : 0 ≤ x) : (if 0 < x then x else 0) = x := by
  split <;> omega

theorem durSum_iteSingle (c : Prop) [Decidable c] (x : Phase) :
    durSum (if c then [x] else []) = if c then x.durationSec else 0 := by
  by_cases h : c <;> simp [h, durSum]

theorem sum_map_range_const_add_if (n k : Nat) (c d : Int) :
    ((List.range n).map (fun i => c + if i < k then d else 0)).sum
      = n * c + (min n k : Nat) * d := by
  induction n with
  | zero => simp
  | succ m ih =>
      rw [List.range_succ]
      simp only [List.map_append, List.sum_append, List.map_cons, List.map_nil,
        List.sum_cons, List.sum_nil, ih]
      by_cases h : m < k
      · rw [if_pos h, Nat.min_eq_left (Nat.le_of_lt h), Nat.min_eq_left h]
        push_cast
        ring
      · rw [if_neg h, Nat.min_eq_right (Nat.le_of_not_lt h), Nat.min_eq_right (by omega)]
        push_cast
        ring

theorem map_congr_fun {α β : Type} (l : List α) (f g : α → β) (h : ∀ a, f a = g a) :
    l.map f = l.map g := by
  rw [funext h]

theorem durSum_repBlock (t : TimingConfig) (reps s r : Int) :
    durSum (repBlock t reps s r)
      = (if 0 < t.workSec then t.workSec else 0)
        + (if r < reps ∧ 0 < t.restBetweenRepsSec then t.restBetweenRepsSec else 0) := by
  simp [repBlock, durSum_append, durSum_iteSingle, workPhase, repRestPhase]

theorem durSum_innerLoop (t : TimingConfig) (R s : Int) (hR : 1 ≤ R)
    (hw : 0 ≤ t.workSec) (hr : 0 ≤ t.restBetweenRepsSec) :
    durSum (((List.range R.toNat).map (fun (i : Nat) => repBlock t R s ((i : Int) + 1))).flatten)
      = R * t.workSec + (R - 1) * t.restBetweenRepsSec := by
  rw [durSum_flatten, List.map_map]
  have hpt : ∀ i : Nat,
      (durSum ∘ fun i : Nat => repBlock t R s ((i : Int) + 1)) i
        = t.workSec + (if i < R.toNat - 1 then t.restBetweenRepsSec else 0) := by
    intro i
    simp only [Function.comp, durSum_repBlock, ite_pos_self _ hw]
    congr 1
    by_cases hc : (i : Int) + 1 < R
    · rw [if_pos (show i < R.toNat - 1 by omega)]
      rcases (show 0 < t.restBetweenRepsSec ∨ t.restBetweenRepsSec = 0 by omega) with h2 | h2
      · rw [if_pos ⟨hc, h2⟩]
      · simp [h2]
    · rw [if_neg (show ¬ i < R.toNat - 1 by omega), if_neg (by tauto)]
  rw [map_congr_fun _ _ _ hpt, sum_map_range_const_add_if]
  rw [Nat.min_eq_right (by omega)]
  have h1 : (R.toNat : Int) = R := Int.toNat_of_nonneg (by omega)
  have h3 : ((R.toNat - 1 : Nat) : Int) = R - 1 := by omega
  rw [h1, h3]

theorem durSum_setBlock (t : TimingConfig) (S R s : Int) (hR : 1 ≤ R)
    (hw : 0 ≤ t.workSec) (hr : 0 ≤ t.restBetweenRepsSec) :
    durSum (setBlock t S R s)
      = (R * t.workSec + (R - 1) * t.restBetweenRepsSec)
        + (if s < S ∧ 0 < t.restBetweenSetsSec then t.restBetweenSetsSec else 0) := by
  rw [setBlock, durSum_append, durSum_innerLoop t R s hR hw hr, durSum_iteSingle]
  simp [setRestPhase]

theorem durSum_mainPhases (t : TimingConfig)
    (h1 : 0 ≤ t.warmupSec) (h2 : 0 ≤ t.workSec) (h3 : 0 ≤ t.restBetweenRepsSec)
    (h4 : 0 ≤ t.restBetweenSetsSec) (h5 : 0 ≤ t.cooldownSec) :
    durSum (mainPhases t)
      = t.warmupSec
        + (max 1 t.sets) * (max 1 t.repsPerSet) * t.workSec
        + (max 1 t.sets) * (max 1 t.repsPerSet - 1) * t.restBetweenRepsSec
        + (max 1 t.sets - 1) * t.restBetweenSetsSec
        + t.cooldownSec := by
  have hS : 1 ≤ max 1 t.sets := le_max_left _ _
  have hR : 1 ≤ max 1 t.repsPerSet := le_max_left _ _
  rw [mainPhases, durSum_append, durSum_append, durSum_iteSingle, durSum_iteSingle,
    durSum_flatten, List.map_map]
  have hpt : ∀ i : Nat,
      (durSum ∘ fun i : Nat => setBlock t (max 1 t.sets) (max 1 t.repsPerSet) ((i : Int) + 1)) i
        = ((max 1 t.repsPerSet) * t.workSec + (max 1 t.repsPerSet - 1) * t.restBetweenRepsSec)
          + (if i < (max 1 t.sets).toNat - 1 then t.restBetweenSetsSec else 0) := by
    intro i
    simp only [Function.comp]
    rw [durSum_setBlock t (max 1 t.sets) (max 1 t.repsPerSet) _ hR h2 h3]
    congr 1
    by_cases hc : (i : Int) + 1 < max 1 t.sets
    · rw [if_pos (show i < (max 1 t.sets).toNat - 1 by omega)]
      rcases (show 0 < t.restBetweenSetsSec ∨ t.restBetweenSetsSec = 0 by omega) with hz | hz
      · rw [if_pos ⟨hc, hz⟩]
      · simp [hz]
    · rw [if_neg (show ¬ i < (max 1 t.sets).toNat - 1 by omega), if_neg (by tauto)]
  rw [map_congr_fun _ _ _ hpt, sum_map_range_const_add_if]
  rw [Nat.min_eq_right (by omega)]
  have hcast1 : ((max 1 t.sets).toNat : Int) = max 1 t.sets := Int.toNat_of_nonneg (by omega)
  have hcast2 : (((max 1 t.sets).toNat - 1 : Nat) : Int) = max 1 t.sets - 1 := by omega
  rw [hcast1, hcast2]
  simp only [warmupPhase, cooldownPhase]
  rw [ite_pos_self _ h1, ite_pos_self _ h5]
  ring

/-! ### Membership structure of the plan -/

theorem mem_iteSingle {c : Prop} [Decidable c] {x p : Phase} :
    p ∈ (if c then [x] else []) ↔ c ∧ p = x := by
  split <;> simp_all

theorem mem_repBlock {t : TimingConfig} {reps s r : Int} {p : Phase} :
    p ∈ repBlock t reps s r
      ↔ (0 < t.workSec ∧ p = workPhase t.workSec s r)
        ∨ (r < reps ∧ 0 < t.restBetweenRepsSec ∧ p = repRestPhase t.restBetweenRepsSec s r) := by
  simp [repBlock, List.mem_append, mem_iteSingle, and_assoc]

theorem mem_setBlock {t : TimingConfig} {S R s : Int} {p : Phase} :
    p ∈ setBlock t S R s
      ↔ (∃ i : Nat, i < R.toNat ∧ p ∈ repBlock t R s ((i : Int) + 1))
        ∨ (s < S ∧ 0 < t.restBetweenSetsSec ∧ p = setRestPhase t.restBetweenSetsSec s R) := by
  unfold setBlock
  rw [List.mem_append, List.mem_flatten]
  constructor
  · rintro (⟨l, hl, hp⟩ | hp)
    · rw [List.mem_map] at hl
      obtain ⟨i, hi, rfl⟩ := hl
      rw [List.mem_range] at hi
      exact Or.inl ⟨i, hi, hp⟩
    · rw [mem_iteSingle] at hp
      exact Or.inr ⟨hp.1.1, hp.1.2, hp.2⟩
  · rintro (⟨i, hi, hp⟩ | ⟨h1, h2, rfl⟩)
    · exact Or.inl ⟨_, List.mem_map.mpr ⟨i, List.mem_range.mpr hi, rfl⟩, hp⟩
    · exact Or.inr (mem_iteSingle.mpr ⟨⟨h1, h2⟩, rfl⟩)

theorem mem_mainPhases {t : TimingConfig} {p : Phase} :
    p ∈ mainPhases t
      ↔ (0 < t.warmupSec ∧ p = warmupPhase t.warmupSec)
        ∨ (∃ i : Nat, i < (max 1 t.sets).toNat
            ∧ p ∈ setBlock t (max 1 t.sets) (max 1 t.repsPerSet) ((i : Int) + 1))
        ∨ (0 < t.cooldownSec ∧ p = cooldownPhase t.cooldownSec) := by
  unfold mainPhases
  rw [List.mem_append, List.mem_append, List.mem_flatten]
  constructor
  · rintro ((hp | ⟨l, hl, hp⟩) | hp)
    · rw [mem_iteSingle] at hp
      exact Or.inl ⟨hp.1, hp.2⟩
    · rw [List.mem_map] at hl
      obtain ⟨i, hi, rfl⟩ := hl
      rw [List.mem_range] at hi
      exact Or.inr (Or.inl ⟨i, hi, hp⟩)
    · rw [mem_iteSingle] at hp
      exact Or.inr (Or.inr ⟨hp.1, hp.2⟩)
  · rintro (⟨h1, rfl⟩ | ⟨i, hi, hp⟩ | ⟨h1, rfl⟩)
    · exact Or.inl (Or.inl (mem_iteSingle.mpr ⟨h1, rfl⟩))
    · exact Or.inl (Or.inr ⟨_, List.mem_map.mpr ⟨i, List.mem_range.mpr hi, rfl⟩, hp⟩)
    · exact Or.inr (mem_iteSingle.mpr ⟨h1, rfl⟩)

theorem buildPhases_ne_nil (card : TimeCard) : buildPhases card ≠ [] := by
  unfold buildPhases
  split <;> simp_all

theorem durationSec_pos_of_mem {card : TimeCard} {p : Phase}
    (hp : p ∈ buildPhases card) : 0 < p.durationSec := by
  unfold buildPhases at hp
  split at hp
  · simp at hp
    subst hp
    simp [fallbackPhase]
  · rcases mem_mainPhases.mp hp with ⟨h, rfl⟩ | ⟨i, _, hm⟩ | ⟨h, rfl⟩
    · simpa [warmupPhase]
    · rcases mem_setBlock.mp hm with ⟨j, _, hr⟩ | ⟨_, h, rfl⟩
      · rcases mem_repBlock.mp hr with ⟨h, rfl⟩ | ⟨_, h, rfl⟩
        · simpa [workPhase]
        · simpa [repRestPhase]
      · simpa [setRestPhase]
    · simpa [cooldownPhase]

/-- The five configured durations all zero forces the planner's fallback. -/
theorem mainPhases_eq_nil_of_allZero {t : TimingConfig}
    (h1 : t.warmupSec = 0) (h2 : t.workSec = 0) (h3 : t.restBetweenRepsSec = 0)
    (h4 : t.restBetweenSetsSec = 0) (h5 : t.cooldownSec = 0) :
    mainPhases t = [] := by
  have hempty : ∀ p : Phase, p ∉ mainPhases t := by
    intro p hp
    rcases mem_mainPhases.mp hp with ⟨h, _⟩ | ⟨i, _, hm⟩ | ⟨h, _⟩
    · omega
    · rcases mem_setBlock.mp hm with ⟨j, _, hr⟩ | ⟨_, h, _⟩
      · rcases mem_repBlock.mp hr with ⟨h, _⟩ | ⟨_, h, _⟩ <;> omega
      · omega
    · omega
  exact List.eq_nil_iff_forall_not_mem.mpr hempty

/-! ### Runner invariants -/

/-- Well-formed plan: non-empty with strictly positive phase durations
(every `buildPhases` output, by `buildPhases_ne_nil` and
`durationSec_pos_of_mem`). -/
def PlanWF (phases : List Phase) : Prop :=
  phases ≠ [] ∧ ∀ p ∈ phases, 0 < p.durationSec

instance (phases : List Phase) : Decidable (PlanWF phases) := by
  unfold PlanWF
  infer_instance

/-- The runner-state invariant of claim C10: the phase index stays inside the
plan, the three second counters stay non-negative, and a `FINISHED` state still
points at the last phase. -/
def StateWF (phases : List Phase) (st : RunnerState) : Prop :=
  st.phaseIndex < phases.length ∧ 0 ≤ st.remainingSec ∧ 0 ≤ st.totalRemainingSec
    ∧ 0 ≤ st.preWorkSec
    ∧ (st.status = RunStatus.FINISHED → st.phaseIndex + 1 = phases.length)

instance (phases : List Phase) (st : RunnerState) : Decidable (StateWF phases st) := by
  unfold StateWF
  infer_instance

/-- `totalRemainingSec` agrees with the pure recomputation from
`(phaseIndex, remainingSec, preWorkSec)` and the plan: current phase remainder,
plus the pre-phase countdown, plus all later durations, plus one countdown
(4 s) per later WORK phase. -/
def TotalConsistent (phases : List Phase) (st : RunnerState) : Prop :=
  st.totalRemainingSec
    = st.remainingSec + st.preWorkSec + durSum (phases.drop (st.phaseIndex + 1))
      + PRE_WORK_COUNTDOWN * (workCount (phases.drop (st.phaseIndex + 1)) : Int)

instance (phases : List Phase) (st : RunnerState) : Decidable (TotalConsistent phases st) := by
  unfold TotalConsistent
  infer_instance

theorem planWF_buildPhases (card : TimeCard) : PlanWF (buildPhases card) :=
  ⟨buildPhases_ne_nil card, fun _ hp => durationSec_pos_of_mem hp⟩

theorem headDurationSec_pos {phases : List Phase} (hP : PlanWF phases) :
    0 < headDurationSec phases := by
  obtain ⟨hne, hpos⟩ := hP
  cases phases with
  | nil => exact absurd rfl hne
  | cons p t => exact hpos p (by simp)

theorem headPre_nonneg (phases : List Phase) : 0 ≤ headPre phases := by
  cases phases with
  | nil => simp [headPre]
  | cons p t =>
      simp only [headPre, PRE_WORK_COUNTDOWN]
      split <;> omega

theorem headPre_cases (phases : List Phase) :
    headPre phases = 0 ∨ headPre phases = PRE_WORK_COUNTDOWN := by
  cases phases with
  | nil => simp [headPre]
  | cons p t =>
      simp only [headPre]
      split
      · exact Or.inr rfl
      · exact Or.inl rfl

theorem totalWithCountdown_nonneg {phases : List Phase}
    (h : ∀ p ∈ phases, 0 ≤ p.durationSec) : 0 ≤ totalWithCountdown phases := by
  unfold totalWithCountdown
  rw [totalSessionSec_eq_durSum]
  have h1 := durSum_nonneg h
  have h2 : (0 : Int) ≤ (workCount phases : Int) := Int.natCast_nonneg _
  simp only [PRE_WORK_COUNTDOWN]
  omega

theorem durSum_drop_nonneg_of_planWF {phases : List Phase} (hP : PlanWF phases) (n : Nat) :
    0 ≤ durSum (phases.drop n) :=
  durSum_drop_nonneg (fun p hp => le_of_lt (hP.2 p hp)) n

theorem stateWF_stop {phases : List Phase} (hP : PlanWF phases) :
    StateWF phases (stop phases) := by
  refine ⟨?_, le_of_lt (headDurationSec_pos hP), ?_, le_refl 0, ?_⟩
  · cases phases with
    | nil => exact absurd rfl hP.1
    | cons p t => simp [stop]
  · exact totalWithCountdown_nonneg (fun p hp => le_of_lt (hP.2 p hp))
  · intro hf
    simp [stop] at hf

theorem initialRunner_eq_stop (phases : List Phase) :
    initialRunner phases = stop phases := rfl

theorem stateWF_startPauseResume {phases : List Phase} {st : RunnerState}
    (hP : PlanWF phases) (h : StateWF phases st) :
    StateWF phases (startPauseResume phases st) := by
  obtain ⟨hidx, hrem, htot, hpre, hfin⟩ := h
  unfold startPauseResume
  by_cases h1 : st.status = RunStatus.IDLE ∨ st.status = RunStatus.FINISHED
  · rw [if_pos h1]
    refine ⟨?_, le_of_lt (headDurationSec_pos hP), ?_, headPre_nonneg phases, ?_⟩
    · cases phases with
      | nil => exact absurd rfl hP.1
      | cons p t => simp
    · exact computeRemainingTotalWithPreWork_nonneg _ _ _ _
        (le_of_lt (headDurationSec_pos hP)) (durSum_drop_nonneg_of_planWF hP _)
    · intro hf
      simp at hf
  · rw [if_neg h1]
    by_cases h2 : st.status = RunStatus.RUNNING
    · rw [if_pos h2]
      exact ⟨hidx, hrem, htot, hpre, fun hf => by simp at hf⟩
    · rw [if_neg h2]
      by_cases h3 : st.status = RunStatus.PAUSED
      · rw [if_pos h3]
        exact ⟨hidx, hrem, htot, hpre, fun hf => by simp at hf⟩
      · rw [if_neg h3]
        exact ⟨hidx, hrem, htot, hpre, hfin⟩

theorem stateWF_tick {phases : List Phase} {st : RunnerState}
    (hP : PlanWF phases) (h : StateWF phases st) :
    StateWF phases (tick phases st) := by
  obtain ⟨hidx, hrem, htot, hpre, hfin⟩ := h
  unfold tick
  by_cases h1 : st.status ≠ RunStatus.RUNNING
  · rw [if_pos h1]
    exact ⟨hidx, hrem, htot, hpre, hfin⟩
  · rw [if_neg h1]
    push_neg at h1
    by_cases h2 : 0 < st.preWorkSec
    · rw [if_pos h2]
      refine ⟨hidx, hrem, ?_, by simp, ?_⟩
      · exact computeRemainingTotalWithPreWork_nonneg _ _ _ _ hrem
          (durSum_drop_nonneg_of_planWF hP _)
      · intro hf
        rw [h1] at hf
        simp at hf
    · rw [if_neg h2]
      by_cases h3 : 1 < st.remainingSec
      · rw [if_pos h3]
        refine ⟨hidx, by dsimp only; omega, ?_, hpre, ?_⟩
        · exact computeRemainingTotalWithPreWork_nonneg _ _ _ _ (by omega)
            (durSum_drop_nonneg_of_planWF hP _)
        · intro hf
          rw [h1] at hf
          simp at hf
      · rw [if_neg h3]
        by_cases h4 : phases.length ≤ st.phaseIndex + 1
        · rw [if_pos h4]
          exact ⟨hidx, le_refl 0, le_refl 0, le_refl 0, fun _ => by dsimp only; omega⟩
        · rw [if_neg h4]
          have hlt : st.phaseIndex + 1 < phases.length := by omega
          have hmem := getD_mem_of_lt hlt
          have hdur := hP.2 _ hmem
          refine ⟨hlt, le_of_lt hdur, ?_, ?_, ?_⟩
          · exact computeRemainingTotalWithPreWork_nonneg _ _ _ _ (le_of_lt hdur)
              (durSum_drop_nonneg_of_planWF hP _)
          · simp only [PRE_WORK_COUNTDOWN]
            split <;> omega
          · intro hf
            simp at hf

theorem stateWF_skip {phases : List Phase} {st : RunnerState}
    (hP : PlanWF phases) (h : StateWF phases st) :
    StateWF phases (skip phases st) := by
  obtain ⟨hidx, hrem, htot, hpre, hfin⟩ := h
  unfold skip
  by_cases h2 : 0 < st.preWorkSec
  · rw [if_pos h2]
    refine ⟨hidx, hrem, ?_, le_refl 0, hfin⟩
    exact computeRemainingTotalWithPreWork_nonneg _ _ _ _ hrem
      (durSum_drop_nonneg_of_planWF hP _)
  · rw [if_neg h2]
    by_cases h4 : phases.length ≤ st.phaseIndex + 1
    · rw [if_pos h4]
      exact ⟨hidx, le_refl 0, le_refl 0, le_refl 0, fun _ => by dsimp only; omega⟩
    · rw [if_neg h4]
      have hlt : st.phaseIndex + 1 < phases.length := by omega
      have hdur := hP.2 _ (getD_mem_of_lt hlt)
      refine ⟨hlt, le_of_lt hdur, ?_, ?_, ?_⟩
      · exact computeRemainingTotalWithPreWork_nonneg _ _ _ _ (le_of_lt hdur)
          (durSum_drop_nonneg_of_planWF hP _)
      · simp only [PRE_WORK_COUNTDOWN]
        split <;> omega
      · intro hf
        simp at hf

theorem stateWF_applyOp {phases : List Phase} {st : RunnerState} (op : RunnerOp)
    (hP : PlanWF phases) (h : StateWF phases st) :
    StateWF phases (applyOp phases op st) := by
  cases op with
  | start => exact stateWF_startPauseResume hP h
  | tick => exact stateWF_tick hP h
  | skip => exact stateWF_skip hP h
  | stop => exact stateWF_stop hP

theorem stateWF_runOps {phases : List Phase} (hP : PlanWF phases)
    (ops : List RunnerOp) {st : RunnerState} (h : StateWF phases st) :
    StateWF phases (runOps phases ops st) := by
  induction ops generalizing st with
  | nil => exact h
  | cons op rest ih =>
      simp only [runOps, List.foldl_cons] at *
      exact ih (stateWF_applyOp op hP h)

theorem totalConsistent_start {phases : List Phase} {st : RunnerState}
    (h : st.status = RunStatus.IDLE ∨ st.status = RunStatus.FINISHED) :
    TotalConsistent phases (startPauseResume phases st) := by
  unfold startPauseResume
  rw [if_pos h]
  unfold TotalConsistent
  dsimp only
  rw [computeRemainingTotalWithPreWork_eq]
  have h0 := headPre_nonneg phases
  simp only [PRE_WORK_COUNTDOWN]
  omega

theorem totalConsistent_tick {phases : List Phase} {st : RunnerState}
    (h1 : st.status = RunStatus.RUNNING) (h2 : 0 ≤ st.preWorkSec) :
    TotalConsistent phases (tick phases st) := by
  unfold tick
  rw [if_neg (by simp [h1])]
  by_cases hp : 0 < st.preWorkSec
  · rw [if_pos hp]
    unfold TotalConsistent
    dsimp only
    rw [computeRemainingTotalWithPreWork_eq]
    omega
  · rw [if_neg hp]
    by_cases h3 : 1 < st.remainingSec
    · rw [if_pos h3]
      unfold TotalConsistent
      dsimp only
      rw [computeRemainingTotalWithPreWork_eq]
      omega
    · rw [if_neg h3]
      by_cases h4 : phases.length ≤ st.phaseIndex + 1
      · rw [if_pos h4]
        unfold TotalConsistent
        dsimp only
        rw [List.drop_eq_nil_of_le (by omega)]
        simp [durSum, workCount]
      · rw [if_neg h4]
        unfold TotalConsistent
        dsimp only
        rw [computeRemainingTotalWithPreWork_eq]
        simp only [PRE_WORK_COUNTDOWN]
        split <;> omega

theorem totalConsistent_skip {phases : List Phase} {st : RunnerState} :
    TotalConsistent phases (skip phases st) := by
  unfold skip
  by_cases hp : 0 < st.preWorkSec
  · rw [if_pos hp]
    unfold TotalConsistent
    dsimp only
    rw [computeRemainingTotalWithPreWork_eq]
    omega
  · rw [if_neg hp]
    by_cases h4 : phases.length ≤ st.phaseIndex + 1
    · rw [if_pos h4]
      unfold TotalConsistent
      dsimp only
      rw [List.drop_eq_nil_of_le (by omega)]
      simp [durSum, workCount]
    · rw [if_neg h4]
      unfold TotalConsistent
      dsimp only
      rw [computeRemainingTotalWithPreWork_eq]
      simp only [PRE_WORK_COUNTDOWN]
      split <;> omega

/-! ### Correctness of the breakdown grouping -/

/-- First-match lookup in the insertion-ordered association list. -/
def lookupKey (acc : List (String × Int × Rat)) (k : String) : Option (Int × Rat) :=
  match acc with
  | [] => none
  | (k0, x, y) :: rest => if k0 = k then some (x, y) else lookupKey rest k

def keysOf (acc : List (String × Int × Rat)) : List String :=
  acc.map Prod.fst

theorem lookupKey_upsert_same (acc : List (String × Int × Rat)) (k : String)
    (r : Int) (kg : Rat) :
    lookupKey (upsert acc k r kg) k
      = some (match lookupKey acc k with
              | none => (r, kg)
              | some (x, y) => (x + r, y + kg)) := by
  induction acc with
  | nil => simp [upsert, lookupKey]
  | cons e rest ih =>
      obtain ⟨k0, x, y⟩ := e
      by_cases h : k0 = k
      · subst h
        simp [upsert, lookupKey]
      · simp [upsert, lookupKey, h, ih]

theorem lookupKey_upsert_other (acc : List (String × Int × Rat)) (k k1 : String)
    (r : Int) (kg : Rat) (h : k1 ≠ k) :
    lookupKey (upsert acc k r kg) k1 = lookupKey acc k1 := by
  have hkk1 : ¬ k = k1 := fun hh => h hh.symm
  induction acc with
  | nil =>
      simp only [upsert, lookupKey]
      rw [if_neg hkk1]
  | cons e rest ih =>
      obtain ⟨k0, x, y⟩ := e
      by_cases h0 : k0 = k
      · subst h0
        simp only [upsert, if_pos rfl, lookupKey]
        rw [if_neg hkk1, if_neg hkk1]
      · simp only [upsert, if_neg h0, lookupKey]
        by_cases h1 : k0 = k1
        · rw [if_pos h1, if_pos h1]
        · rw [if_neg h1, if_neg h1, ih]

theorem keysOf_upsert (acc : List (String × Int × Rat)) (k : String) (r : Int) (kg : Rat) :
    keysOf (upsert acc k r kg) = if k ∈ keysOf acc then keysOf acc else keysOf acc ++ [k] := by
  induction acc with
  | nil => simp [upsert, keysOf]
  | cons e rest ih =>
      obtain ⟨k0, x, y⟩ := e
      by_cases h : k0 = k
      · subst h
        simp [upsert, keysOf]
      · have hkk0 : ¬ k = k0 := fun hh => h hh.symm
        simp only [upsert, if_neg h, keysOf, List.map_cons] at *
        by_cases hm : k ∈ List.map Prod.fst rest
        · rw [ih, if_pos hm, if_pos (List.mem_cons_of_mem _ hm)]
        · rw [ih, if_neg hm,
            if_neg (fun hc => by rcases List.mem_cons.mp hc with hc | hc <;> simp_all),
            List.cons_append]

theorem nodup_keysOf_upsert {acc : List (String × Int × Rat)} (k : String) (r : Int) (kg : Rat)
    (h : (keysOf acc).Nodup) : (keysOf (upsert acc k r kg)).Nodup := by
  rw [keysOf_upsert]
  split
  · exact h
  · next hnot => simp [List.nodup_append, h, hnot]

theorem lookupKey_eq_none_iff (acc : List (String × Int × Rat)) (k : String) :
    lookupKey acc k = none ↔ k ∉ keysOf acc := by
  induction acc with
  | nil => simp [lookupKey, keysOf]
  | cons e rest ih =>
      obtain ⟨k0, x, y⟩ := e
      by_cases h : k0 = k
      · subst h
        simp [lookupKey, keysOf]
      · have hkk0 : ¬ k = k0 := fun hh => h hh.symm
        simp [lookupKey, keysOf, h, hkk0, ih]

theorem mem_iff_lookupKey {acc : List (String × Int × Rat)} (hnd : (keysOf acc).Nodup)
    (k : String) (x : Int) (y : Rat) :
    (k, x, y) ∈ acc ↔ lookupKey acc k = some (x, y) := by
  induction acc with
  | nil => simp [lookupKey]
  | cons e rest ih =>
      obtain ⟨k0, x0, y0⟩ := e
      simp only [keysOf, List.map_cons, List.nodup_cons] at hnd
      by_cases h : k0 = k
      · subst h
        simp only [lookupKey, if_pos rfl, List.mem_cons]
        constructor
        · rintro (he | hm)
          · simp_all
          · exact absurd (List.mem_map.mpr ⟨_, hm, rfl⟩) hnd.1
        · rintro he
          simp_all
      · simp only [lookupKey, if_neg h, List.mem_cons]
        rw [← ih hnd.2]
        constructor
        · rintro (he | hm)
          · exact absurd (congrArg Prod.fst he).symm h
          · exact hm
        · exact Or.inr

/-- One step of the breakdown fold. -/
def bdStep (acc : List (String × Int × Rat)) (s : RepSet) : List (String × Int × Rat) :=
  upsert acc (bdKey s.exercise) s.reps ((s.reps : Rat) * s.weightKg)

theorem repBreakdown_eq_foldl (card : RepCard) :
    repBreakdown card = card.sets.foldl bdStep [] := rfl

theorem sumRepsAt_cons (s : RepSet) (l : List RepSet) (k : String) :
    sumRepsAt (s :: l) k
      = (if bdKey s.exercise = k then s.reps else 0) + sumRepsAt l k := by
  by_cases h : bdKey s.exercise = k <;> simp [sumRepsAt, List.filter_cons, h]

theorem sumKgAt_cons (s : RepSet) (l : List RepSet) (k : String) :
    sumKgAt (s :: l) k
      = (if bdKey s.exercise = k then (s.reps : Rat) * s.weightKg else 0) + sumKgAt l k := by
  by_cases h : bdKey s.exercise = k <;> simp [sumKgAt, List.filter_cons, h]

theorem lookupKey_foldl_bdStep (l : List RepSet) :
    ∀ (acc : List (String × Int × Rat)) (k : String),
    lookupKey (l.foldl bdStep acc) k
      = match lookupKey acc k with
        | some (x, y) => some (x + sumRepsAt l k, y + sumKgAt l k)
        | none =>
            if k ∈ l.map (fun s => bdKey s.exercise)
            then some (sumRepsAt l k, sumKgAt l k) else none := by
  induction l with
  | nil =>
      intro acc k
      cases h : lookupKey acc k with
      | none => simp [sumRepsAt, sumKgAt, h]
      | some v => obtain ⟨x, y⟩ := v; simp [sumRepsAt, sumKgAt, h]
  | cons s rest ih =>
      intro acc k
      rw [List.foldl_cons, ih, sumRepsAt_cons, sumKgAt_cons]
      by_cases hk : bdKey s.exercise = k
      · rw [if_pos hk, if_pos hk]
        unfold bdStep
        rw [hk, lookupKey_upsert_same]
        cases h : lookupKey acc k with
        | none =>
            simp only [h, List.map_cons, List.mem_cons,
              if_pos (Or.inl hk.symm : k = bdKey s.exercise ∨ k ∈ rest.map (fun s => bdKey s.exercise)),
              Option.some.injEq, Prod.mk.injEq]
        | some v =>
            obtain ⟨x, y⟩ := v
            simp only [h, Option.some.injEq, Prod.mk.injEq]
            constructor <;> ring
      · rw [if_neg hk, if_neg hk]
        unfold bdStep
        rw [lookupKey_upsert_other _ _ _ _ _ (fun hh => hk hh.symm)]
        cases h : lookupKey acc k with
        | none =>
            simp only [h, List.map_cons, List.mem_cons]
            rw [if_congr (Iff.intro
                (fun hc => by rcases hc with hc | hc
                              · exact absurd hc.symm hk
                              · exact hc)
                (fun hc => Or.inr hc)) rfl rfl]
            simp
        | some v => obtain ⟨x, y⟩ := v; simp [h]

theorem nodup_keysOf_foldl_bdStep (l : List RepSet) :
    ∀ acc : List (String × Int × Rat),
    (keysOf acc).Nodup → (keysOf (l.foldl bdStep acc)).Nodup := by
  induction l with
  | nil => exact fun acc h => h
  | cons s rest ih =>
      intro acc h
      rw [List.foldl_cons]
      exact ih _ (nodup_keysOf_upsert _ _ _ h)

theorem nodup_keysOf_repBreakdown (card : RepCard) :
    (keysOf (repBreakdown card)).Nodup := by
  rw [repBreakdown_eq_foldl]
  exact nodup_keysOf_foldl_bdStep card.sets [] (by simp [keysOf])

/-- Every entry of `repBreakdown` carries exactly the per-key aggregates. -/
theorem repBreakdown_entry_eq {card : RepCard} {k : String} {x : Int} {y : Rat}
    (h : (k, x, y) ∈ repBreakdown card) :
    x = sumRepsAt card.sets k ∧ y = sumKgAt card.sets k := by
  have hl := (mem_iff_lookupKey (nodup_keysOf_repBreakdown card) k x y).mp h
  rw [repBreakdown_eq_foldl, lookupKey_foldl_bdStep card.sets [] k] at hl
  simp only [lookupKey] at hl
  by_cases hm : k ∈ card.sets.map (fun s => bdKey s.exercise)
  · rw [if_pos hm] at hl
    have hpair := Option.some.inj hl
    rw [Prod.mk.injEq] at hpair
    exact ⟨hpair.1.symm, hpair.2.symm⟩
  · rw [if_neg hm] at hl
    exact absurd hl (by simp)

/-- The breakdown's keys are exactly the grouping keys of the card's sets. -/
theorem mem_keysOf_repBreakdown (card : RepCard) (k : String) :
    k ∈ keysOf (repBreakdown card) ↔ k ∈ card.sets.map (fun s => bdKey s.exercise) := by
  rw [← not_iff_not, ← lookupKey_eq_none_iff]
  rw [repBreakdown_eq_foldl, lookupKey_foldl_bdStep card.sets [] k]
  simp only [lookupKey]
  by_cases hm : k ∈ card.sets.map (fun s => bdKey s.exercise)
  · rw [if_pos hm]
    simp [hm]
  · rw [if_neg hm]
    simp [hm]

theorem foldl_add_reps (l : List RepSet) (a : Int) :
    l.foldl (fun sum s => sum + s.reps) a = a + (l.map RepSet.reps).sum := by
  induction l generalizing a with
  | nil => simp
  | cons s rest ih => simp [ih]; ring

theorem foldl_add_kg (l : List RepSet) (a : Rat) :
    l.foldl (fun sum s => sum + (s.reps : Rat) * s.weightKg) a
      = a + (l.map (fun s => (s.reps : Rat) * s.weightKg)).sum := by
  induction l generalizing a with
  | nil => simp
  | cons s rest ih => simp [ih]; ring

theorem repTotals_fst (card : RepCard) :
    (repTotals card).1 = (card.sets.map RepSet.reps).sum := by
  simp [repTotals, foldl_add_reps]

theorem repTotals_snd (card : RepCard) :
    (repTotals card).2 = (card.sets.map (fun s => (s.reps : Rat) * s.weightKg)).sum := by
  simp [repTotals, foldl_add_kg]

/-- Normal form of the grouping key: the trimmed name, with the placeholder for
names that trim to nothing. -/
theorem bdKey_eq (e : String) :
    bdKey e = if jsTrim e = "" then "—" else jsTrim e := by
  by_cases he : e = ""
  · subst he
    decide
  · simp [bdKey, he]

/-! ### Claim theorems -/

/-- C1: on a non-empty plan, a tick of a `RUNNING` state performs exactly one
of, in priority order: decrement `preWorkSec` (phase index and remaining
seconds unchanged); decrement `remainingSec` when it exceeds 1; advance to the
next phase (setting its duration and a 4-second countdown iff it is WORK); or,
with no next phase, become `FINISHED` with `remainingSec`, `totalRemainingSec`
and `preWorkSec` all 0 and the phase index unchanged.  The index advances by at
most one per tick, and a tick of any non-`RUNNING` state (IDLE, PAUSED,
FINISHED) returns the state unchanged. -/
theorem tick_single_step (phases : List Phase) (prev : RunnerState)
    (_hne : phases ≠ []) :
    (prev.status ≠ RunStatus.RUNNING → tick phases prev = prev)
    ∧ (prev.status = RunStatus.RUNNING →
        (0 < prev.preWorkSec →
          (tick phases prev).preWorkSec = prev.preWorkSec - 1
          ∧ (tick phases prev).phaseIndex = prev.phaseIndex
          ∧ (tick phases prev).remainingSec = prev.remainingSec
          ∧ (tick phases prev).status = RunStatus.RUNNING)
        ∧ (prev.preWorkSec ≤ 0 → 1 < prev.remainingSec →
          (tick phases prev).remainingSec = prev.remainingSec - 1
          ∧ (tick phases prev).phaseIndex = prev.phaseIndex
          ∧ (tick phases prev).preWorkSec = prev.preWorkSec
          ∧ (tick phases prev).status = RunStatus.RUNNING)
        ∧ (prev.preWorkSec ≤ 0 → prev.remainingSec ≤ 1 →
          (prev.phaseIndex + 1 < phases.length →
            (tick phases prev).phaseIndex = prev.phaseIndex + 1
            ∧ (tick phases prev).remainingSec
                = (phases.getD (prev.phaseIndex + 1) default).durationSec
            ∧ (tick phases prev).preWorkSec
                = (if (phases.getD (prev.phaseIndex + 1) default).type = PhaseType.WORK
                   then PRE_WORK_COUNTDOWN else 0)
            ∧ (tick phases prev).status = RunStatus.RUNNING)
          ∧ (phases.length ≤ prev.phaseIndex + 1 →
            (tick phases prev).status = RunStatus.FINISHED
            ∧ (tick phases prev).remainingSec = 0
            ∧ (tick phases prev).totalRemainingSec = 0
            ∧ (tick phases prev).preWorkSec = 0
            ∧ (tick phases prev).phaseIndex = prev.phaseIndex)))
    ∧ (tick phases prev).phaseIndex ≤ prev.phaseIndex + 1 := by
  refine ⟨?_, ?_, ?_⟩
  · intro h
    unfold tick
    rw [if_pos h]
  · intro h
    have hns : ¬ prev.status ≠ RunStatus.RUNNING := by simp [h]
    refine ⟨?_, ?_, ?_⟩
    · intro hp
      unfold tick
      rw [if_neg hns, if_pos hp]
      exact ⟨by dsimp only; omega, rfl, rfl, h⟩
    · intro hp hr
      unfold tick
      rw [if_neg hns, if_neg (by omega : ¬ 0 < prev.preWorkSec), if_pos hr]
      exact ⟨rfl, rfl, rfl, h⟩
    · intro hp hr
      constructor
      · intro hlt
        unfold tick
        rw [if_neg hns, if_neg (by omega : ¬ 0 < prev.preWorkSec),
          if_neg (by omega : ¬ 1 < prev.remainingSec),
          if_neg (by omega : ¬ phases.length ≤ prev.phaseIndex + 1)]
        exact ⟨rfl, rfl, rfl, rfl⟩
      · intro hle
        unfold tick
        rw [if_neg hns, if_neg (by omega : ¬ 0 < prev.preWorkSec),
          if_neg (by omega : ¬ 1 < prev.remainingSec), if_pos hle]
        exact ⟨rfl, rfl, rfl, rfl, rfl⟩
  · unfold tick
    by_cases h1 : prev.status ≠ RunStatus.RUNNING
    · rw [if_pos h1]
      omega
    · rw [if_neg h1]
      by_cases h2 : 0 < prev.preWorkSec
      · rw [if_pos h2]
        dsimp only
        omega
      · rw [if_neg h2]
        by_cases h3 : 1 < prev.remainingSec
        · rw [if_pos h3]
          dsimp only
          omega
        · rw [if_neg h3]
          by_cases h4 : phases.length ≤ prev.phaseIndex + 1
          · rw [if_pos h4]
            dsimp only
            omega
          · rw [if_neg h4]

/-- Witness for C1 at a concrete running state in a one-phase plan. -/
theorem tick_single_step_witness :
    (([workPhase 2 1 1] : List Phase) ≠ [])
    ∧ ((tick [workPhase 2 1 1] ⟨RunStatus.RUNNING, 0, 2, 2, 0⟩).remainingSec = 1
       ∧ (tick [workPhase 2 1 1] ⟨RunStatus.RUNNING, 0, 2, 2, 0⟩).phaseIndex = 0
       ∧ (tick [workPhase 2 1 1] ⟨RunStatus.RUNNING, 0, 2, 2, 0⟩).preWorkSec = 0
       ∧ (tick [workPhase 2 1 1] ⟨RunStatus.RUNNING, 0, 2, 2, 0⟩).status
           = RunStatus.RUNNING) :=
  ⟨by decide,
   ((tick_single_step [workPhase 2 1 1] ⟨RunStatus.RUNNING, 0, 2, 2, 0⟩
      (by decide)).2.1 rfl).2.1 (by decide) (by decide)⟩

/-- The example card from claim C2: workSec 20, sets 3, restBetweenSetsSec 60,
all other durations 0 (repsPerSet 1). -/
def c2ExampleCard : TimeCard :=
  ⟨"c2", "C2", 0, 0, ⟨"E", "", none⟩, none, ⟨0, 20, 0, 1, 60, 3, 0⟩⟩

/-- C2: the plan's `totalSessionSec` is the sum of its `durationSec` values,
and whenever any phase is emitted from the configured durations (no fallback),
that sum is `warmup + S*R*work + S*(R-1)*restReps + (S-1)*restSets + cooldown`
with `S = max 1 sets`, `R = max 1 repsPerSet`; the claim's example yields
`[Work, Rest, Work, Rest, Work]` totalling 180. -/
theorem plan_total_formula (card : TimeCard)
    (h1 : 0 ≤ card.timing.warmupSec) (h2 : 0 ≤ card.timing.workSec)
    (h3 : 0 ≤ card.timing.restBetweenRepsSec) (h4 : 0 ≤ card.timing.restBetweenSetsSec)
    (h5 : 0 ≤ card.timing.cooldownSec) :
    totalSessionSec (buildPhases card) = durSum (buildPhases card)
    ∧ (mainPhases card.timing ≠ [] →
        totalSessionSec (buildPhases card)
          = card.timing.warmupSec
            + (max 1 card.timing.sets) * (max 1 card.timing.repsPerSet) * card.timing.workSec
            + (max 1 card.timing.sets) * (max 1 card.timing.repsPerSet - 1)
                * card.timing.restBetweenRepsSec
            + (max 1 card.timing.sets - 1) * card.timing.restBetweenSetsSec
            + card.timing.cooldownSec)
    ∧ buildPhases c2ExampleCard
        = [workPhase 20 1 1, setRestPhase 60 1 1, workPhase 20 2 1,
           setRestPhase 60 2 1, workPhase 20 3 1]
    ∧ totalSessionSec (buildPhases c2ExampleCard) = 180 := by
  refine ⟨totalSessionSec_eq_durSum _, ?_, by decide, by decide⟩
  intro hne
  rw [totalSessionSec_eq_durSum]
  unfold buildPhases
  rw [if_neg hne]
  exact durSum_mainPhases card.timing h1 h2 h3 h4 h5

/-- Witness for C2: the formula evaluated on the claim's example card. -/
theorem plan_total_formula_witness :
    mainPhases c2ExampleCard.timing ≠ []
    ∧ totalSessionSec (buildPhases c2ExampleCard)
        = c2ExampleCard.timing.warmupSec
          + (max 1 c2ExampleCard.timing.sets) * (max 1 c2ExampleCard.timing.repsPerSet)
              * c2ExampleCard.timing.workSec
          + (max 1 c2ExampleCard.timing.sets) * (max 1 c2ExampleCard.timing.repsPerSet - 1)
              * c2ExampleCard.timing.restBetweenRepsSec
          + (max 1 c2ExampleCard.timing.sets - 1) * c2ExampleCard.timing.restBetweenSetsSec
          + c2ExampleCard.timing.cooldownSec :=
  ⟨by decide,
   (plan_total_formula c2ExampleCard (by decide) (by decide) (by decide) (by decide)
      (by decide)).2.1 (by decide)⟩

/-- The example card from claim C3: sets 1, repsPerSet 1, both rests 30,
work 10, warmup and cooldown 0. -/
def c3ExampleCard : TimeCard :=
  ⟨"c3", "C3", 0, 0, ⟨"E", "", none⟩, none, ⟨0, 10, 30, 1, 30, 1, 0⟩⟩

/-- C3: no plan phase is a rep-rest tagged with the last rep (`rep = max 1
repsPerSet`) or a set-rest tagged with the last set (`set = max 1 sets`); the
claim's single-set single-rep example builds exactly one 10-second Work
phase. -/
theorem no_trailing_rest (card : TimeCard) (p : Phase) (hp : p ∈ buildPhases card) :
    ¬(p.restKind = RestKind.REP ∧ p.rep = max 1 card.timing.repsPerSet)
    ∧ ¬(p.restKind = RestKind.SET ∧ p.set = max 1 card.timing.sets)
    ∧ buildPhases c3ExampleCard = [workPhase 10 1 1] := by
  have hcases : (p.restKind = RestKind.NONE)
      ∨ (p.restKind = RestKind.REP ∧ p.rep < max 1 card.timing.repsPerSet)
      ∨ (p.restKind = RestKind.SET ∧ p.set < max 1 card.timing.sets) := by
    unfold buildPhases at hp
    split at hp
    · simp at hp
      subst hp
      left
      rfl
    · rcases mem_mainPhases.mp hp with ⟨_, rfl⟩ | ⟨i, hi, hm⟩ | ⟨_, rfl⟩
      · left
        rfl
      · rcases mem_setBlock.mp hm with ⟨j, hj, hr⟩ | ⟨hs, _, rfl⟩
        · rcases mem_repBlock.mp hr with ⟨_, rfl⟩ | ⟨hrlt, _, rfl⟩
          · left
            rfl
          · right
            left
            exact ⟨rfl, hrlt⟩
        · right
          right
          exact ⟨rfl, hs⟩
      · left
        rfl
  refine ⟨?_, ?_, by decide⟩
  · rintro ⟨hk, hr⟩
    rcases hcases with h | ⟨_, hlt⟩ | ⟨hsk, _⟩
    · rw [h] at hk
      exact absurd hk (by decide)
    · omega
    · rw [hsk] at hk
      exact absurd hk (by decide)
  · rintro ⟨hk, hs⟩
    rcases hcases with h | ⟨hrk, _⟩ | ⟨_, hlt⟩
    · rw [h] at hk
      exact absurd hk (by decide)
    · rw [hrk] at hk
      exact absurd hk (by decide)
    · omega

/-- Witness for C3 at the warmup phase of a small plan. -/
theorem no_trailing_rest_witness :
    warmupPhase 7 ∈ buildPhases ⟨"w", "W", 0, 0, ⟨"E", "", none⟩, none,
        ⟨7, 10, 0, 1, 0, 1, 0⟩⟩
    ∧ ¬((warmupPhase 7).restKind = RestKind.REP
        ∧ (warmupPhase 7).rep
            = max 1 (⟨"w", "W", 0, 0, ⟨"E", "", none⟩, none,
                ⟨7, 10, 0, 1, 0, 1, 0⟩⟩ : TimeCard).timing.repsPerSet) :=
  ⟨by decide,
   (no_trailing_rest ⟨"w", "W", 0, 0, ⟨"E", "", none⟩, none, ⟨7, 10, 0, 1, 0, 1, 0⟩⟩
      (warmupPhase 7) (by decide)).1⟩

/-- C4: every plan is non-empty with strictly positive phase durations, and a
configuration whose five durations are all zero yields exactly the synthetic
20-second Work phase tagged set 1, rep 1. -/
theorem plan_positive_fallback (card : TimeCard)
    (_h1 : 0 ≤ card.timing.warmupSec) (_h2 : 0 ≤ card.timing.workSec)
    (_h3 : 0 ≤ card.timing.restBetweenRepsSec) (_h4 : 0 ≤ card.timing.repsPerSet)
    (_h5 : 0 ≤ card.timing.restBetweenSetsSec) (_h6 : 0 ≤ card.timing.sets)
    (_h7 : 0 ≤ card.timing.cooldownSec) :
    buildPhases card ≠ []
    ∧ (∀ p ∈ buildPhases card, 0 < p.durationSec)
    ∧ (card.timing.warmupSec = 0 → card.timing.workSec = 0 →
        card.timing.restBetweenRepsSec = 0 → card.timing.restBetweenSetsSec = 0 →
        card.timing.cooldownSec = 0 →
        buildPhases card = [⟨PhaseType.WORK, "ARBEIT", RestKind.NONE, 20, 1, 1⟩]) := by
  refine ⟨buildPhases_ne_nil card, fun p hp => durationSec_pos_of_mem hp, ?_⟩
  intro hz1 hz2 hz3 hz4 hz5
  unfold buildPhases
  rw [mainPhases_eq_nil_of_allZero hz1 hz2 hz3 hz4 hz5]
  rfl

/-- Witness for C4 at the all-zero configuration. -/
theorem plan_positive_fallback_witness :
    buildPhases ⟨"z", "Z", 0, 0, ⟨"E", "", none⟩, none, ⟨0, 0, 0, 0, 0, 0, 0⟩⟩ ≠ []
    ∧ buildPhases ⟨"z", "Z", 0, 0, ⟨"E", "", none⟩, none, ⟨0, 0, 0, 0, 0, 0, 0⟩⟩
        = [⟨PhaseType.WORK, "ARBEIT", RestKind.NONE, 20, 1, 1⟩] := by
  have h := plan_positive_fallback ⟨"z", "Z", 0, 0, ⟨"E", "", none⟩, none,
    ⟨0, 0, 0, 0, 0, 0, 0⟩⟩ (by decide) (by decide) (by decide) (by decide) (by decide)
    (by decide) (by decide)
  exact ⟨h.1, h.2.2 rfl rfl rfl rfl rfl⟩

/-- C5 counterexample: from a PAUSED state with an active pre-work countdown,
`skip` clears the countdown but leaves the status PAUSED — the run does not
end up in status Running as the claim states. -/
theorem skip_pre_paused_counterexample :
    (⟨RunStatus.PAUSED, 0, 10, 14, 4⟩ : RunnerState).status = RunStatus.PAUSED
    ∧ 0 < (⟨RunStatus.PAUSED, 0, 10, 14, 4⟩ : RunnerState).preWorkSec
    ∧ (skip [workPhase 10 1 1] ⟨RunStatus.PAUSED, 0, 10, 14, 4⟩).preWorkSec = 0
    ∧ (skip [workPhase 10 1 1] ⟨RunStatus.PAUSED, 0, 10, 14, 4⟩).status
        = RunStatus.PAUSED
    ∧ (skip [workPhase 10 1 1] ⟨RunStatus.PAUSED, 0, 10, 14, 4⟩).status
        ≠ RunStatus.RUNNING := by
  decide

/-- C5 amended: from a Running or Paused state, `skip` with `preWorkSec > 0`
only clears the countdown, leaving phaseIndex, remainingSec and the status
unchanged (Paused stays Paused rather than becoming Running); with
`preWorkSec = 0` it performs exactly the natural end-of-phase advance (next
phase's duration, 4-second countdown iff the next phase is WORK, status
Running; or FINISHED with remainingSec, totalRemainingSec and preWorkSec all 0
when no next phase exists). -/
theorem skip_behavior (phases : List Phase) (prev : RunnerState)
    (_hst : prev.status = RunStatus.RUNNING ∨ prev.status = RunStatus.PAUSED) :
    (0 < prev.preWorkSec →
      (skip phases prev).preWorkSec = 0
      ∧ (skip phases prev).phaseIndex = prev.phaseIndex
      ∧ (skip phases prev).remainingSec = prev.remainingSec
      ∧ (skip phases prev).status = prev.status)
    ∧ (prev.preWorkSec = 0 →
      (prev.phaseIndex + 1 < phases.length →
        (skip phases prev).phaseIndex = prev.phaseIndex + 1
        ∧ (skip phases prev).remainingSec
            = (phases.getD (prev.phaseIndex + 1) default).durationSec
        ∧ (skip phases prev).preWorkSec
            = (if (phases.getD (prev.phaseIndex + 1) default).type = PhaseType.WORK
               then PRE_WORK_COUNTDOWN else 0)
        ∧ (skip phases prev).status = RunStatus.RUNNING)
      ∧ (phases.length ≤ prev.phaseIndex + 1 →
        (skip phases prev).status = RunStatus.FINISHED
        ∧ (skip phases prev).remainingSec = 0
        ∧ (skip phases prev).totalRemainingSec = 0
        ∧ (skip phases prev).preWorkSec = 0)) := by
  constructor
  · intro hp
    unfold skip
    rw [if_pos hp]
    exact ⟨rfl, rfl, rfl, rfl⟩
  · intro hp
    constructor
    · intro hlt
      unfold skip
      rw [if_neg (by omega : ¬ 0 < prev.preWorkSec),
        if_neg (by omega : ¬ phases.length ≤ prev.phaseIndex + 1)]
      exact ⟨rfl, rfl, rfl, rfl⟩
    · intro hle
      unfold skip
      rw [if_neg (by omega : ¬ 0 < prev.preWorkSec), if_pos hle]
      exact ⟨rfl, rfl, rfl, rfl⟩

/-- Witness for the amended C5 at a paused state with an active countdown. -/
theorem skip_behavior_witness :
    ((⟨RunStatus.PAUSED, 0, 10, 14, 4⟩ : RunnerState).status = RunStatus.RUNNING
      ∨ (⟨RunStatus.PAUSED, 0, 10, 14, 4⟩ : RunnerState).status = RunStatus.PAUSED)
    ∧ ((skip [workPhase 10 1 1] ⟨RunStatus.PAUSED, 0, 10, 14, 4⟩).preWorkSec = 0
       ∧ (skip [workPhase 10 1 1] ⟨RunStatus.PAUSED, 0, 10, 14, 4⟩).phaseIndex = 0
       ∧ (skip [workPhase 10 1 1] ⟨RunStatus.PAUSED, 0, 10, 14, 4⟩).remainingSec = 10
       ∧ (skip [workPhase 10 1 1] ⟨RunStatus.PAUSED, 0, 10, 14, 4⟩).status
           = RunStatus.PAUSED) :=
  ⟨Or.inr rfl,
   (skip_behavior [workPhase 10 1 1] ⟨RunStatus.PAUSED, 0, 10, 14, 4⟩
      (Or.inr rfl)).1 (by decide)⟩

/-- C6: every state produced by Start (from Idle or Finished), by a tick of a
Running state with non-negative countdown, or by Skip satisfies
`totalRemainingSec = remainingSec + preWorkSec + (sum of later durations)
+ 4 × (number of later WORK phases)`; and `computeRemainingTotalWithPreWork`
itself equals that pure recomputation for non-negative countdown inputs. -/
theorem total_remaining_recomputed (phases : List Phase) (prev : RunnerState) :
    (prev.status = RunStatus.IDLE ∨ prev.status = RunStatus.FINISHED →
      TotalConsistent phases (startPauseResume phases prev))
    ∧ (prev.status = RunStatus.RUNNING → 0 ≤ prev.preWorkSec →
      TotalConsistent phases (tick phases prev))
    ∧ TotalConsistent phases (skip phases prev)
    ∧ (∀ (idx : Nat) (rem pre : Int), 0 ≤ pre →
      computeRemainingTotalWithPreWork phases idx rem pre PRE_WORK_COUNTDOWN
        = rem + pre + durSum (phases.drop (idx + 1))
          + PRE_WORK_COUNTDOWN * (workCount (phases.drop (idx + 1)) : Int)) := by
  refine ⟨totalConsistent_start, totalConsistent_tick, totalConsistent_skip, ?_⟩
  intro idx rem pre hpre
  rw [computeRemainingTotalWithPreWork_eq]
  simp only [PRE_WORK_COUNTDOWN]
  omega

/-- Witness for C6: the invariant after one tick of a concrete running state. -/
theorem total_remaining_recomputed_witness :
    (⟨RunStatus.RUNNING, 0, 5, 8, 0⟩ : RunnerState).status = RunStatus.RUNNING
    ∧ 0 ≤ (⟨RunStatus.RUNNING, 0, 5, 8, 0⟩ : RunnerState).preWorkSec
    ∧ TotalConsistent [workPhase 5 1 1, setRestPhase 3 1 1]
        (tick [workPhase 5 1 1, setRestPhase 3 1 1] ⟨RunStatus.RUNNING, 0, 5, 8, 0⟩) :=
  ⟨rfl, by decide,
   (total_remaining_recomputed [workPhase 5 1 1, setRestPhase 3 1 1]
      ⟨RunStatus.RUNNING, 0, 5, 8, 0⟩).2.1 rfl (by decide)⟩

/-- C7: committing a finished run to history twice with the saved flag
initially clear and a non-empty profile id appends exactly one log entry; the
second invocation sees the flag set and returns flag and history unchanged;
and the entry records the planned total `totalSessionSec (buildPhases card)`,
not any wall-clock time. -/
theorem save_to_history_once (newId : String) (now : Int) (newId2 : String) (now2 : Int)
    (profileId : String) (card : TimeCard) (history : List WorkoutLogEntry)
    (hpid : profileId ≠ "") :
    (saveToHistory newId now profileId card false history).2
        = makeTimeLogEntry newId now profileId card (totalSessionSec (buildPhases card))
            :: history
    ∧ (saveToHistory newId now profileId card false history).1 = true
    ∧ saveToHistory newId2 now2 profileId card
        (saveToHistory newId now profileId card false history).1
        (saveToHistory newId now profileId card false history).2
      = saveToHistory newId now profileId card false history
    ∧ (makeTimeLogEntry newId now profileId card
        (totalSessionSec (buildPhases card))).time
        = some { exercise := card.exercise.name
                 plannedTotalSec := totalSessionSec (buildPhases card)
                 sets := card.timing.sets
                 repsPerSet := card.timing.repsPerSet
                 workSec := card.timing.workSec
                 restBetweenSetsSec := card.timing.restBetweenSetsSec } := by
  refine ⟨?_, ?_, ?_, rfl⟩ <;> simp [saveToHistory, hpid]

/-- Witness for C7 at a concrete card, profile and empty history. -/
theorem save_to_history_once_witness :
    ("p1" : String) ≠ ""
    ∧ (saveToHistory "e1" 100 "p1" c2ExampleCard false []).2
        = [makeTimeLogEntry "e1" 100 "p1" c2ExampleCard
            (totalSessionSec (buildPhases c2ExampleCard))]
    ∧ saveToHistory "e2" 200 "p1" c2ExampleCard
        (saveToHistory "e1" 100 "p1" c2ExampleCard false []).1
        (saveToHistory "e1" 100 "p1" c2ExampleCard false []).2
      = saveToHistory "e1" 100 "p1" c2ExampleCard false [] :=
  ⟨by decide,
   (save_to_history_once "e1" 100 "e2" 200 "p1" c2ExampleCard [] (by decide)).1,
   (save_to_history_once "e1" 100 "e2" 200 "p1" c2ExampleCard [] (by decide)).2.2.1⟩

/-- An editor-producible TIME card (positive work, sets and reps in range)
whose between-set rest is 0. -/
def c8CounterCard : TimeCard :=
  ⟨"id1", "T", 5, 6, ⟨"E", "", none⟩, none, ⟨0, 20, 0, 1, 0, 1, 0⟩⟩

/-- C8 counterexample: a previously saved TIME card with
`restBetweenSetsSec = 0` does not survive the save/load round trip — loading
replaces the 0 by the falsy-default 60 (`Number(t.restBetweenSetsSec) || 60`),
so the loaded list differs from the original in a timing field. -/
theorem roundtrip_counterexample :
    c8CounterCard.timing.restBetweenSetsSec = 0
    ∧ saveLoadCards "fresh" 0 [IntervalCard.time c8CounterCard]
        = [IntervalCard.time { c8CounterCard with
            timing := { c8CounterCard.timing with restBetweenSetsSec := 60 } }]
    ∧ saveLoadCards "fresh" 0 [IntervalCard.time c8CounterCard]
        ≠ [IntervalCard.time c8CounterCard] := by
  decide

/-- C8 amended: the save/load round trip preserves id, title and every timing
field of an editor-producible TIME card except that a zero
`restBetweenSetsSec` loads as 60; it preserves the semantic fields of every
REP card with at least one set; and a legacy raw card with no `kind`
discriminator but with `timing` and `exercise` fields is inferred as a
Time-kind card. -/
theorem roundtrip_semantic_fields :
    (∀ (freshId : String) (now : Int) (c : TimeCard),
      1 ≤ c.timing.sets → c.timing.sets ≤ 99 →
      1 ≤ c.timing.repsPerSet → c.timing.repsPerSet ≤ 99 →
      0 < c.timing.workSec → 0 ≤ c.timing.warmupSec →
      0 ≤ c.timing.restBetweenRepsSec → 0 ≤ c.timing.restBetweenSetsSec →
      0 ≤ c.timing.cooldownSec →
      ∃ c2 : TimeCard,
        normalizeLoadedCard freshId now (toRawTime c) = some (IntervalCard.time c2)
        ∧ c2.id = c.id ∧ c2.title = c.title
        ∧ c2.timing = { c.timing with restBetweenSetsSec :=
            if c.timing.restBetweenSetsSec = 0 then 60 else c.timing.restBetweenSetsSec })
    ∧ (∀ (freshId : String) (now : Int) (c : RepCard),
      c.sets ≠ [] → 0 ≤ c.warmupSec → 0 ≤ c.cooldownSec →
      ∃ c2 : RepCard,
        normalizeLoadedCard freshId now (toRawRep c) = some (IntervalCard.reps c2)
        ∧ c2.id = c.id ∧ c2.title = c.title ∧ c2.warmupSec = c.warmupSec
        ∧ c2.cooldownSec = c.cooldownSec
        ∧ c2.restBetweenSetsSec = c.restBetweenSetsSec
        ∧ c2.targetSetSec = c.targetSetSec
        ∧ c2.sets.map (fun s => (s.id, s.exercise, s.reps, s.weightKg))
            = c.sets.map (fun s => (s.id, s.exercise, s.reps, s.weightKg)))
    ∧ (∀ (freshId : String) (now : Int) (raw : RawCard),
      raw.kind = none → raw.timing ≠ none → raw.exercise ≠ none →
      ∃ c2 : TimeCard,
        normalizeLoadedCard freshId now raw = some (IntervalCard.time c2)) := by
  refine ⟨?_, ?_, ?_⟩
  · intro freshId now c hs1 hs2 hr1 hr2 hw hw0 hrr hrs hcd
    refine ⟨normalizeTimeBranch freshId now (toRawTime c), ?_, ?_, ?_, ?_⟩
    · have hcond : (toRawTime c).kind = some "TIME"
          ∨ ((toRawTime c).timing ≠ none ∧ (toRawTime c).exercise ≠ none) := Or.inl rfl
      unfold normalizeLoadedCard
      rw [if_neg (by simp [toRawTime]), if_pos hcond]
    · simp [normalizeTimeBranch, toRawTime]
    · simp [normalizeTimeBranch, toRawTime]
    · simp only [normalizeTimeBranch, toRawTime, jnum, clampInt, Option.getD_some]
      ext <;> dsimp only
      all_goals split <;> omega
  · intro freshId now c hne hw hc
    refine ⟨normalizeRepsBranch freshId now (toRawRep c), ?_, ?_, ?_, ?_, ?_, ?_, ?_, ?_⟩
    · have hcond : (toRawRep c).kind = some "REPS" := rfl
      unfold normalizeLoadedCard
      rw [if_pos hcond]
    · simp [normalizeRepsBranch, toRawRep]
    · simp [normalizeRepsBranch, toRawRep]
    · simp only [normalizeRepsBranch, toRawRep]
      omega
    · simp only [normalizeRepsBranch, toRawRep]
      omega
    · simp [normalizeRepsBranch, toRawRep]
    · simp [normalizeRepsBranch, toRawRep]
    · simp only [normalizeRepsBranch, toRawRep]
      rw [if_neg (by simpa using hne)]
      simp [List.map_map, Function.comp]
  · intro freshId now raw hk ht he
    refine ⟨normalizeTimeBranch freshId now raw, ?_⟩
    unfold normalizeLoadedCard
    rw [if_neg (by simp [hk]), if_pos (Or.inr ⟨ht, he⟩)]

/-- Witness for the amended C8 at concrete TIME and legacy inputs. -/
theorem roundtrip_semantic_fields_witness :
    (1 : Int) ≤ c2ExampleCard.timing.sets
    ∧ (∃ c2 : TimeCard,
        normalizeLoadedCard "f" 0 (toRawTime c2ExampleCard)
          = some (IntervalCard.time c2)
        ∧ c2.id = c2ExampleCard.id ∧ c2.title = c2ExampleCard.title
        ∧ c2.timing = { c2ExampleCard.timing with restBetweenSetsSec :=
            if c2ExampleCard.timing.restBetweenSetsSec = 0 then 60
            else c2ExampleCard.timing.restBetweenSetsSec }) :=
  ⟨by decide,
   roundtrip_semantic_fields.1 "f" 0 c2ExampleCard (by decide) (by decide) (by decide)
     (by decide) (by decide) (by decide) (by decide) (by decide) (by decide)⟩

/-- The C9 counterexample card: two sets whose exercise names differ only by a
trailing space. -/
def c9CounterCard : RepCard :=
  ⟨"r1", "R", 0, 0, 0, 0,
    [⟨"s1", "A", 1, 0, none⟩, ⟨"s2", "A ", 1, 0, none⟩], 60, none⟩

/-- C9 counterexample: the source groups by the *trimmed* exercise name, so
the distinct names `"A"` and `"A "` collapse into one group, while grouping
per distinct name as the claim words it (only blank/whitespace-only names
collapsing) keeps them separate. -/
theorem breakdown_trim_counterexample :
    c9CounterCard.sets.map RepSet.exercise = ["A", "A "]
    ∧ (repBreakdown c9CounterCard).map (fun e => (e.1, e.2.1)) = [("A", 2)]
    ∧ (repBreakdownSpec c9CounterCard).map (fun e => (e.1, e.2.1))
        = [("A", 1), ("A ", 1)]
    ∧ repBreakdown c9CounterCard ≠ repBreakdownSpec c9CounterCard := by
  refine ⟨by decide, by decide, by decide, fun h => ?_⟩
  exact absurd
    (congrArg (List.map (fun e : String × Int × Rat => (e.1, e.2.1))) h) (by decide)

/-- C9 amended: `repTotals` returns the sum of reps and Σ(reps × weightKg)
over the card's sets (18 and 90 on the claim's example); `repBreakdown` groups
by the *trimmed* exercise name — case-sensitively, with names that trim to
nothing collapsing to the placeholder `—`, and names equal after trimming
sharing one group — its keys are pairwise distinct, cover exactly the sets'
grouping keys, and each entry carries the per-key rep and kg sums. -/
theorem rep_totals_breakdown (card : RepCard) :
    (repTotals card).1 = (card.sets.map RepSet.reps).sum
    ∧ (repTotals card).2 = (card.sets.map (fun s => (s.reps : Rat) * s.weightKg)).sum
    ∧ (∀ (k : String) (x : Int) (y : Rat), (k, x, y) ∈ repBreakdown card →
        x = sumRepsAt card.sets k ∧ y = sumKgAt card.sets k)
    ∧ (keysOf (repBreakdown card)).Nodup
    ∧ (∀ k, k ∈ keysOf (repBreakdown card)
        ↔ k ∈ card.sets.map (fun s => bdKey s.exercise))
    ∧ (∀ e, bdKey e = if jsTrim e = "" then "—" else jsTrim e)
    ∧ repTotals ⟨"ex", "Ex", 0, 0, 0, 0,
        [⟨"s1", "X", 10, 5, none⟩, ⟨"s2", "X", 8, 5, none⟩], 60, none⟩ = (18, 90) :=
  ⟨repTotals_fst card, repTotals_snd card,
   fun _ _ _ h => repBreakdown_entry_eq h,
   nodup_keysOf_repBreakdown card,
   mem_keysOf_repBreakdown card,
   bdKey_eq,
   by norm_num [repTotals]⟩

/-- Witness for the amended C9: a concrete breakdown entry carries the per-key
sums. -/
theorem rep_totals_breakdown_witness :
    ((bdKey "A", (2 : Int), ((2 : Int) : Rat) * (0 : Rat))
        ∈ repBreakdown ⟨"w", "W", 0, 0, 0, 0, [⟨"s", "A", 2, 0, none⟩], 60, none⟩)
    ∧ ((2 : Int) = sumRepsAt [⟨"s", "A", 2, 0, none⟩] (bdKey "A")
       ∧ ((2 : Int) : Rat) * (0 : Rat) = sumKgAt [⟨"s", "A", 2, 0, none⟩] (bdKey "A")) :=
  ⟨List.mem_singleton.mpr rfl,
   (rep_totals_breakdown ⟨"w", "W", 0, 0, 0, 0, [⟨"s", "A", 2, 0, none⟩], 60, none⟩).2.2.1
     (bdKey "A") 2 (((2 : Int) : Rat) * (0 : Rat)) (List.mem_singleton.mpr rfl)⟩

/-- C10: starting from the initial Idle state of any well-formed plan, every
sequence of runner operations (Start/Pause/Resume, tick, Skip, Stop) keeps the
phase index inside the plan, keeps remainingSec, totalRemainingSec and
preWorkSec non-negative, and a FINISHED state still indexes the plan's last
phase. -/
theorem runner_invariants (phases : List Phase) (hP : PlanWF phases)
    (ops : List RunnerOp) :
    StateWF phases (runOps phases ops (initialRunner phases)) := by
  have h0 : StateWF phases (initialRunner phases) := by
    rw [initialRunner_eq_stop]
    exact stateWF_stop hP
  exact stateWF_runOps hP ops h0

/-- Witness for C10 on a two-phase plan and a run that reaches FINISHED. -/
theorem runner_invariants_witness :
    PlanWF [workPhase 2 1 1, setRestPhase 3 1 1]
    ∧ StateWF [workPhase 2 1 1, setRestPhase 3 1 1]
        (runOps [workPhase 2 1 1, setRestPhase 3 1 1]
          [RunnerOp.start, RunnerOp.skip, RunnerOp.tick, RunnerOp.skip, RunnerOp.tick]
          (initialRunner [workPhase 2 1 1, setRestPhase 3 1 1])) :=
  ⟨by decide, runner_invariants _ (by decide) _⟩

end ITrainer
